import Mathlib

/-!
Verification development for the telegraph-mcp content-transcoding pipeline.

The definitions below are a shallow embedding of the TypeScript source:
* `htmlToNodes` (telegraph-client.ts): regex-tokenizing HTML parser with an
  explicit open-element stack;
* `markdownToHtml` (telegraph-client.ts): an ordered pipeline of textual
  rewrite rules;
* `parseContent` (telegraph-client.ts): the content normalizer;
* `nodesToMarkdown` (tools/export.ts): the tree-to-Markdown serializer.

JavaScript strings are modelled as Lean `String`/`List Char`; the regex
scans are modelled by explicit character-level scanners reproducing the
semantics of the concrete regular expressions in the source (greedy runs,
one-character advance on a failed match attempt, multiline anchors).
Recursive scanners take a fuel argument; fuel equal to the input length is
sufficient because every step consumes at least one input character.
-/

namespace Telegraph

/-- Content node (types.ts `Node = string | NodeElement`): a text leaf or an
element with tag, attributes and children.  The source omits the `attrs` /
`children` object fields when they are empty; here an element always carries
both lists and the empty list plays the role of the omitted field (the
JSON embedding `Node.toJson` below reinstates the omission). -/
inductive Node where
  | text (s : String)
  | element (tag : String) (attrs : List (String × String)) (children : List Node)

mutual

/-- Decidable equality on nodes (structural). -/
def Node.decEq : (a b : Node) → Decidable (a = b)
  | .text s, .text t =>
    if h : s = t then .isTrue (by rw [h]) else .isFalse (by simp [h])
  | .text _, .element .. => .isFalse (by intro hh; exact Node.noConfusion hh)
  | .element .., .text _ => .isFalse (by intro hh; exact Node.noConfusion hh)
  | .element t1 a1 c1, .element t2 a2 c2 =>
    match Node.decEqList c1 c2 with
    | .isTrue h3 =>
      if h1 : t1 = t2 then
        if h2 : a1 = a2 then .isTrue (by rw [h1, h2, h3])
        else .isFalse (by intro hh; injection hh; contradiction)
      else .isFalse (by intro hh; injection hh; contradiction)
    | .isFalse _ => .isFalse (by intro hh; injection hh; contradiction)

/-- Decidable equality on node lists. -/
def Node.decEqList : (xs ys : List Node) → Decidable (xs = ys)
  | [], [] => .isTrue rfl
  | [], _ :: _ => .isFalse (by intro hh; exact List.noConfusion hh)
  | _ :: _, [] => .isFalse (by intro hh; exact List.noConfusion hh)
  | x :: xs, y :: ys =>
    match Node.decEq x y, Node.decEqList xs ys with
    | .isTrue h1, .isTrue h2 => .isTrue (by rw [h1, h2])
    | .isFalse _, _ => .isFalse (by intro hh; injection hh; contradiction)
    | _, .isFalse _ => .isFalse (by intro hh; injection hh; contradiction)

end

instance : DecidableEq Node :=
  Node.decEq

/-- JavaScript `\w` character class (ASCII letters, digits, underscore). -/
def isWordChar (c : Char) : Bool :=
  ('a' ≤ c && c ≤ 'z') || ('A' ≤ c && c ≤ 'Z') || ('0' ≤ c && c ≤ '9') || c = '_'

/-- Character class `[\w-]` used for tag and attribute names. -/
def isNameChar (c : Char) : Bool :=
  isWordChar c || c = '-'

/-- Either quote character accepted by the attribute regex `["']`. -/
def isQuote (c : Char) : Bool :=
  c = '"' || c = '\''

/-- JavaScript `String.prototype.toLowerCase` (ASCII range). -/
def strToLower (s : String) : String :=
  (s.data.map Char.toLower).asString

/-- JavaScript `String.prototype.includes` specialized to one character
(`attrString.includes('/')`). -/
def strContainsChar (s : String) (c : Char) : Bool :=
  s.data.contains c

/-- Token produced by the combined scan regex
`/<(\/?)([\w-]+)([^>]*)>|([^<]+)/g` of `htmlToNodes`: either a tag (closing
flag, name, raw attribute substring) or a run of non-`<` text. -/
inductive Token where
  | text (s : String)
  | tag (closing : Bool) (nm : String) (attrString : String)
deriving Repr, DecidableEq

/-- Attempt to match the tag alternative `<(\/?)([\w-]+)([^>]*)>` starting
just after a `<`.  Returns the closing flag, tag name, raw attribute
substring and the remaining input, or `none` when the alternative fails at
this position (no name character, or no `>` until end of input). -/
def tryTag (cs : List Char) : Option (Bool × String × String × List Char) :=
  let p := match cs with
    | '/' :: r => (true, r)
    | _ => (false, cs)
  let nm := p.2.takeWhile isNameChar
  let cs2 := p.2.dropWhile isNameChar
  if nm.isEmpty then none
  else
    let attrs := cs2.takeWhile (fun c => c != '>')
    match cs2.dropWhile (fun c => c != '>') with
    | '>' :: rest => some (p.1, nm.asString, attrs.asString, rest)
    | _ => none

/-- One `regex.exec` loop of `htmlToNodes` over the input: a `<` starts a
tag-match attempt (on failure the engine advances one character, exactly as
`lastIndex` does); any other character starts a maximal run of non-`<` text. -/
def tokenizeCore : Nat → List Char → List Token
  | 0, _ => []
  | _, [] => []
  | fuel + 1, '<' :: rest =>
    match tryTag rest with
    | some (closing, nm, attrs, rest2) => .tag closing nm attrs :: tokenizeCore fuel rest2
    | none => tokenizeCore fuel rest
  | fuel + 1, c :: rest =>
    let txt := rest.takeWhile (fun d => d != '<')
    .text (c :: txt).asString :: tokenizeCore fuel (rest.dropWhile (fun d => d != '<'))

/-- Tokenize an HTML string (the `while ((match = tagRegex.exec(html)))` loop). -/
def tokenize (s : String) : List Token :=
  tokenizeCore s.length s.data

/-- Attempt to match one `([\w-]+)=["']([^"']*)["']` attribute pair at the
start of the input; returns key, value and remaining input. -/
def tryAttrPair (cs : List Char) : Option (String × String × List Char) :=
  let nm := cs.takeWhile isNameChar
  let cs1 := cs.dropWhile isNameChar
  if nm.isEmpty then none
  else match cs1 with
    | '=' :: q :: cs2 =>
      if isQuote q then
        let v := cs2.takeWhile (fun c => !(isQuote c))
        match cs2.dropWhile (fun c => !(isQuote c)) with
        | _ :: cs3 => some (nm.asString, v.asString, cs3)
        | [] => none
      else none
    | _ => none

/-- JavaScript object assignment `attrs[key] = value`: overwrite an existing
key in place, otherwise append. -/
def setAttr (attrs : List (String × String)) (k v : String) : List (String × String) :=
  if attrs.any (fun q => q.1 = k) then
    attrs.map (fun q => if q.1 = k then (k, v) else q)
  else attrs ++ [(k, v)]

/-- The `attrRegex.exec` loop: scan the raw attribute substring, matching
pairs and advancing one character past unmatched garbage. -/
def parseAttrsCore : Nat → List Char → List (String × String) → List (String × String)
  | 0, _, acc => acc
  | _, [], acc => acc
  | fuel + 1, c :: cs, acc =>
    match tryAttrPair (c :: cs) with
    | some (k, v, rest) => parseAttrsCore fuel rest (setAttr acc k v)
    | none => parseAttrsCore fuel cs acc

/-- Parse the raw attribute substring of an opening tag. -/
def parseAttrs (s : String) : List (String × String) :=
  parseAttrsCore s.length s.data []

/-- Open-element stack frame of `htmlToNodes`: tag name, accumulated
attributes and accumulated children of an element still being parsed. -/
structure Frame where
  tag : String
  attrs : List (String × String)
  children : List Node
deriving DecidableEq

/-- Finalize a frame into an element node (the source conditionally attaches
`attrs` / `children`; the empty list stands for the omitted field). -/
def Frame.toNode (f : Frame) : Node :=
  .element f.tag f.attrs f.children

/-- Parser state: the completed top-level node list and the open-element
stack with its top at the head.  The source's mutable `current` alias is the
head frame's `children` when the stack is nonempty, `nodes` otherwise. -/
structure PState where
  nodes : List Node
  stack : List Frame
deriving DecidableEq

/-- Append a finished node to the current node list (top frame's children,
or the top-level list when the stack is empty). -/
def pushNode (st : PState) (n : Node) : PState :=
  match st.stack with
  | [] => { st with nodes := st.nodes ++ [n] }
  | f :: fs => { st with stack := { f with children := f.children ++ [n] } :: fs }

/-- The self-closing tag set `['br', 'hr', 'img']`. -/
def selfClosingTags : List String :=
  ["br", "hr", "img"]

/-- One iteration of the token loop of `htmlToNodes`:
* a text run is pushed to the current list (the source re-checks truthiness);
* a closing tag pops the top frame — if any — finalizes it and appends it to
  the new current list; with an empty stack it is silently dropped;
* an opening tag whose lowercased name is self-closing, or whose raw
  attribute substring contains `/` anywhere (`attrString.includes('/')`), is
  emitted immediately as a childless element; otherwise a fresh frame is
  pushed and `current` becomes its children list. -/
def step (st : PState) : Token → PState
  | .text s => if s.isEmpty then st else pushNode st (.text s)
  | .tag true _ _ =>
    match st.stack with
    | [] => st
    | f :: fs => pushNode { st with stack := fs } f.toNode
  | .tag false nm attrString =>
    let tag := strToLower nm
    let attrs := parseAttrs attrString
    if selfClosingTags.contains tag || strContainsChar attrString '/' then
      pushNode st (.element tag attrs [])
    else
      { st with stack := ⟨tag, attrs, []⟩ :: st.stack }

/-- Run the token loop from a given state. -/
def runTokens (st : PState) (ts : List Token) : PState :=
  ts.foldl step st

/-- End-of-input cleanup of `htmlToNodes`: force-close the remaining frames
in LIFO order, finalizing each exactly as an explicit close would (fuel is
the number of frames; the loop pops one frame per iteration). -/
def flushStackCore : Nat → List Frame → List Node → List Node
  | 0, _, ns => ns
  | _, [], ns => ns
  | fuel + 1, f :: fs, ns =>
    match fs with
    | [] => ns ++ [f.toNode]
    | g :: gs => flushStackCore fuel ({ g with children := g.children ++ [f.toNode] } :: gs) ns

/-- The `while (stack.length > 0)` cleanup loop. -/
def flushStack (fs : List Frame) (ns : List Node) : List Node :=
  flushStackCore fs.length fs ns

/-- Model of `htmlToNodes` (telegraph-client.ts): tokenize, run the stack machine,
force-close leftovers. -/
def htmlToNodes (html : String) : List Node :=
  let st := runTokens ⟨[], []⟩ (tokenize html)
  flushStack st.stack st.nodes

/-! ## Markdown-to-HTML converter

Each `html.replace(regex, ...)` call of `markdownToHtml` becomes one scanner
pass below.  A failed match attempt advances one character, as the regex
engine's `lastIndex` does. -/

/-- JavaScript `\s` restricted to ASCII (space, tab, LF, CR, VT, FF). -/
def isJsSpace (c : Char) : Bool :=
  c = ' ' || c = '\t' || c = '\n' || c = '\r' || c = '\x0b' || c = '\x0c'

/-- JavaScript line terminators (ASCII part): LF and CR; `.` never matches
them and the multiline anchors `^` / `$` break around them. -/
def isLineTerm (c : Char) : Bool :=
  c = '\n' || c = '\r'

/-- JavaScript `String.prototype.trim` (ASCII whitespace). -/
def jsTrim (cs : List Char) : List Char :=
  ((cs.dropWhile isJsSpace).reverse.dropWhile isJsSpace).reverse

/-- Split at the first occurrence of `pat`, returning the characters before
it and the characters after it (used for the lazy `([\s\S]*?)` capture: the
lazy match ends at the first later occurrence of the closing delimiter). -/
def splitFirst (pat : List Char) : List Char → Option (List Char × List Char)
  | [] => none
  | c :: cs =>
    if pat.isPrefixOf (c :: cs) then some ([], (c :: cs).drop pat.length)
    else match splitFirst pat cs with
      | some (pre, post) => some (c :: pre, post)
      | none => none

/-- Fenced-code extraction, modelling
`html.replace(/```([\s\S]*?)```/g, ...)`: each delimited block is trimmed,
pushed onto the table, and replaced by the marker `__CODEBLOCK_<i>__`. -/
def fencedCore : Nat → List Char → List (List Char) → List Char × List (List Char)
  | 0, cs, acc => (cs, acc)
  | _, [], acc => ([], acc)
  | fuel + 1, c :: cs, acc =>
    if ("```".data).isPrefixOf (c :: cs) then
      match splitFirst "```".data ((c :: cs).drop 3) with
      | some (code, rest) =>
        let marker := ("__CODEBLOCK_" ++ toString acc.length ++ "__").data
        let r := fencedCore fuel rest (acc ++ [jsTrim code])
        (marker ++ r.1, r.2)
      | none =>
        let r := fencedCore fuel cs acc
        (c :: r.1, r.2)
    else
      let r := fencedCore fuel cs acc
      (c :: r.1, r.2)

/-- Inline-code extraction, modelling ``html.replace(/`([^`]+)`/g, ...)``. -/
def inlineCore : Nat → List Char → List (List Char) → List Char × List (List Char)
  | 0, cs, acc => (cs, acc)
  | _, [], acc => ([], acc)
  | fuel + 1, c :: cs, acc =>
    if c = '`' then
      let code := cs.takeWhile (fun d => d != '`')
      match cs.dropWhile (fun d => d != '`') with
      | _ :: rest =>
        if code.isEmpty then
          let r := inlineCore fuel cs acc
          (c :: r.1, r.2)
        else
          let marker := ("__INLINECODE_" ++ toString acc.length ++ "__").data
          let r := inlineCore fuel rest (acc ++ [code])
          (marker ++ r.1, r.2)
      | [] =>
        let r := inlineCore fuel cs acc
        (c :: r.1, r.2)
    else
      let r := inlineCore fuel cs acc
      (c :: r.1, r.2)

/-- Greedy `\s+` split for `\s+(.+)$` under the `m` flag: the largest
`r` with `1 ≤ r ≤ bound` such that the character at offset `r` (the first
`.` of the capture) exists and is not a line terminator. -/
def greedyWsSplit (rest : List Char) : Nat → Option Nat
  | 0 => none
  | r + 1 =>
    match rest.drop (r + 1) with
    | d :: _ => if isLineTerm d then greedyWsSplit rest r else some (r + 1)
    | [] => greedyWsSplit rest r

/-- One multiline rule `^MARKER\s+(.+)$` → `OPEN$1CLOSE` (used for the four
heading rules and the blockquote rule).  `atStart` tracks whether the scan
position is at the start of the input or right after a line terminator. -/
def lineRuleCore (marker openT closeT : List Char) : Nat → Bool → List Char → List Char
  | 0, _, cs => cs
  | _, _, [] => []
  | fuel + 1, atStart, c :: cs =>
    if atStart && marker.isPrefixOf (c :: cs) then
      let rest := (c :: cs).drop marker.length
      let wsMax := (rest.takeWhile isJsSpace).length
      match greedyWsSplit rest wsMax with
      | some r =>
        let content := (rest.drop r).takeWhile (fun d => !(isLineTerm d))
        let after := (rest.drop r).dropWhile (fun d => !(isLineTerm d))
        openT ++ content ++ closeT ++ lineRuleCore marker openT closeT fuel false after
      | none => c :: lineRuleCore marker openT closeT fuel (isLineTerm c) cs
    else c :: lineRuleCore marker openT closeT fuel (isLineTerm c) cs

/-- Horizontal-rule pass, modelling `html.replace(/^---+$/gm, '<hr/>')`:
a line consisting of three or more hyphens becomes `<hr/>`. -/
def hrRuleCore : Nat → Bool → List Char → List Char
  | 0, _, cs => cs
  | _, _, [] => []
  | fuel + 1, atStart, c :: cs =>
    if atStart && c = '-' then
      let hy := (c :: cs).takeWhile (fun d => d == '-')
      let rest := (c :: cs).dropWhile (fun d => d == '-')
      let atEnd := match rest with
        | [] => true
        | d :: _ => isLineTerm d
      if hy.length ≥ 3 && atEnd then "<hr/>".data ++ hrRuleCore fuel false rest
      else c :: hrRuleCore fuel false cs
    else c :: hrRuleCore fuel (isLineTerm c) cs

/-- Attempt the image pattern `!\[([^\]]*)\]\(([^)]+)\)` with the leading
`!` already consumed; returns the replacement
`<figure><img src="$2"/><figcaption>$1</figcaption></figure>` and the rest. -/
def tryFigure (cs : List Char) : Option (List Char × List Char) :=
  match cs with
  | '[' :: cs1 =>
    let alt := cs1.takeWhile (fun d => d != ']')
    match cs1.dropWhile (fun d => d != ']') with
    | _ :: '(' :: cs2 =>
      let url := cs2.takeWhile (fun d => d != ')')
      if url.isEmpty then none
      else match cs2.dropWhile (fun d => d != ')') with
        | _ :: rest =>
          some ("<figure><img src=\"".data ++ url ++ "\"/><figcaption>".data ++ alt
            ++ "</figcaption></figure>".data, rest)
        | [] => none
    | _ => none
  | _ => none

/-- Image pass, modelling the `!\[([^\]]*)\]\(([^)]+)\)` replace. -/
def figureCore : Nat → List Char → List Char
  | 0, cs => cs
  | _, [] => []
  | fuel + 1, c :: cs =>
    if c = '!' then
      match tryFigure cs with
      | some (repl, rest) => repl ++ figureCore fuel rest
      | none => c :: figureCore fuel cs
    else c :: figureCore fuel cs

/-- Attempt the link pattern `\[([^\]]+)\]\(([^)]+)\)` with the leading `[`
already consumed; returns the replacement `<a href="$2">$1</a>` and the rest. -/
def tryLink (cs : List Char) : Option (List Char × List Char) :=
  let txt := cs.takeWhile (fun d => d != ']')
  if txt.isEmpty then none
  else match cs.dropWhile (fun d => d != ']') with
    | _ :: '(' :: cs2 =>
      let url := cs2.takeWhile (fun d => d != ')')
      if url.isEmpty then none
      else match cs2.dropWhile (fun d => d != ')') with
        | _ :: rest => some ("<a href=\"".data ++ url ++ "\">".data ++ txt ++ "</a>".data, rest)
        | [] => none
    | _ => none

/-- Link pass, modelling the `\[([^\]]+)\]\(([^)]+)\)` replace. -/
def linkCore : Nat → List Char → List Char
  | 0, cs => cs
  | _, [] => []
  | fuel + 1, c :: cs =>
    if c = '[' then
      match tryLink cs with
      | some (repl, rest) => repl ++ linkCore fuel rest
      | none => c :: linkCore fuel cs
    else c :: linkCore fuel cs

/-- Attempt the bold pattern `dd([^d]+)dd` (for delimiter `d`, i.e. `\*\*`
or `__`) with the first delimiter character already consumed. -/
def tryBold (d : Char) (cs : List Char) : Option (List Char × List Char) :=
  match cs with
  | e :: cs1 =>
    if e = d then
      let inner := cs1.takeWhile (fun x => x != d)
      if inner.isEmpty then none
      else match cs1.dropWhile (fun x => x != d) with
        | _ :: g :: rest =>
          if g = d then some ("<b>".data ++ inner ++ "</b>".data, rest) else none
        | _ => none
    else none
  | [] => none

/-- Bold pass, modelling `\*\*([^*]+)\*\*` and `__([^_]+)__`. -/
def boldCore (d : Char) : Nat → List Char → List Char
  | 0, cs => cs
  | _, [] => []
  | fuel + 1, c :: cs =>
    if c = d then
      match tryBold d cs with
      | some (repl, rest) => repl ++ boldCore d fuel rest
      | none => c :: boldCore d fuel cs
    else c :: boldCore d fuel cs

/-- Attempt the italic body `([^d]+)d(?!\w)` with the opening delimiter
already consumed: a nonempty delimiter-free run, the closing delimiter, and
a negative word lookahead. -/
def tryItalic (d : Char) (cs : List Char) : Option (List Char × List Char) :=
  let inner := cs.takeWhile (fun x => x != d)
  if inner.isEmpty then none
  else match cs.dropWhile (fun x => x != d) with
    | _ :: rest =>
      let lookOk := match rest with
        | e :: _ => !(isWordChar e)
        | [] => true
      if lookOk then some ("<i>".data ++ inner ++ "</i>".data, rest) else none
    | [] => none

/-- Italic pass, modelling `(?<!\w)\*([^*]+)\*(?!\w)` (and the `_` twin):
`prev` is the source character just before the scan position, examined by
the negative word lookbehind. -/
def italicCore (d : Char) : Nat → Option Char → List Char → List Char
  | 0, _, cs => cs
  | _, _, [] => []
  | fuel + 1, prev, c :: cs =>
    let behindOk := match prev with
      | some p => !(isWordChar p)
      | none => true
    if c = d && behindOk then
      match tryItalic d cs with
      | some (repl, rest) => repl ++ italicCore d fuel (some d) rest
      | none => c :: italicCore d fuel (some c) cs
    else c :: italicCore d fuel (some c) cs

/-- Match one list line, i.e. `\s+(.+)$` (no `m` flag: `$` is end of the
line string) after the marker: greedy whitespace, then a terminator-free
nonempty remainder reaching the end of the line. -/
def wsContentEnd (rest : List Char) : Nat → Option (List Char)
  | 0 => none
  | r + 1 =>
    let tail := rest.drop (r + 1)
    if !tail.isEmpty && tail.all (fun d => !(isLineTerm d)) then some tail
    else wsContentEnd rest r

/-- Match `^[-*]\s+(.+)$` against one line, returning the item content. -/
def matchUlLine (line : List Char) : Option (List Char) :=
  match line with
  | c :: cs =>
    if c = '-' || c = '*' then wsContentEnd cs (cs.takeWhile isJsSpace).length
    else none
  | [] => none

/-- Match `^\d+\.\s+(.+)$` against one line, returning the item content. -/
def matchOlLine (line : List Char) : Option (List Char) :=
  let ds := line.takeWhile Char.isDigit
  if ds.isEmpty then none
  else match line.dropWhile Char.isDigit with
    | '.' :: cs => wsContentEnd cs (cs.takeWhile isJsSpace).length
    | _ => none

/-- The list-grouping loop shared by the `ul` and `ol` passes: consecutive
matching lines accumulate `<li>` items; a non-matching line (or the end of
input) flushes them as one `OPEN…CLOSE` line. -/
def listPassCore (matcher : List Char → Option (List Char)) (openT closeT : List Char) :
    List (List Char) → List (List Char) → List (List Char)
  | [], acc => if acc.isEmpty then [] else [openT ++ acc.flatten ++ closeT]
  | l :: ls, acc =>
    match matcher l with
    | some content =>
      listPassCore matcher openT closeT ls (acc ++ ["<li>".data ++ content ++ "</li>".data])
    | none =>
      if acc.isEmpty then l :: listPassCore matcher openT closeT ls []
      else (openT ++ acc.flatten ++ closeT) :: l :: listPassCore matcher openT closeT ls []

/-- Attempt a placeholder `TAG(\d+)__` at the start of the input, returning
the parsed index and the rest. -/
def tryPlaceholder (tag : List Char) (cs : List Char) : Option (Nat × List Char) :=
  if tag.isPrefixOf cs then
    let cs1 := cs.drop tag.length
    let ds := cs1.takeWhile Char.isDigit
    if ds.isEmpty then none
    else match cs1.dropWhile Char.isDigit with
      | '_' :: '_' :: rest =>
        some (ds.foldl (fun n c => 10 * n + (c.toNat - '0'.toNat)) 0, rest)
      | _ => none
  else none

/-- Placeholder-restoring pass (`__CODEBLOCK_(\d+)__` / `__INLINECODE_(\d+)__`):
each marker becomes `OPEN` + the table entry + `CLOSE`.  An index outside the
table renders as the text `undefined`, as the JavaScript template literal
would. -/
def restoreCore (tag openT closeT : List Char) (table : List (List Char)) :
    Nat → List Char → List Char
  | 0, cs => cs
  | _, [] => []
  | fuel + 1, c :: cs =>
    match tryPlaceholder tag (c :: cs) with
    | some (i, rest) =>
      openT ++ table.getD i "undefined".data ++ closeT ++ restoreCore tag openT closeT table fuel rest
    | none => c :: restoreCore tag openT closeT table fuel cs

/-- Split on `/\n\n+/` (runs of two or more newlines), keeping empty pieces,
as `html.split(/\n\n+/)` does. -/
def splitBlocksCore : Nat → List Char → List Char → List (List Char)
  | 0, cur, cs => [cur ++ cs]
  | _, cur, [] => [cur]
  | fuel + 1, cur, c :: cs =>
    let twoNl := c = '\n' && (match cs with
      | d :: _ => d = '\n'
      | [] => false)
    if twoNl then cur :: splitBlocksCore fuel [] (cs.dropWhile (fun d => d == '\n'))
    else splitBlocksCore fuel (cur ++ [c]) cs

/-- Paragraph mapping of one block: trim; pass an apparent complete element
(starts with `<` and ends with `>`) through unwrapped; drop an empty block;
wrap anything else in `<p>…</p>`. -/
def paraWrap (b : List Char) : List Char :=
  let t := jsTrim b
  if t.isEmpty then []
  else
    let startsLt := match t with
      | c :: _ => c = '<'
      | [] => false
    let endsGt := match t.getLast? with
      | some c => c = '>'
      | none => false
    if startsLt && endsGt then t
    else "<p>".data ++ t ++ "</p>".data

/-- Model of `markdownToHtml` (telegraph-client.ts): the ordered rewrite pipeline —
code extraction, headings, horizontal rules, images, links, bold, italic,
blockquotes, list grouping, code restoration, paragraph wrapping. -/
def markdownToHtml (markdown : String) : String :=
  let s0 := markdown.data
  let r1 := fencedCore s0.length s0 []
  let r2 := inlineCore r1.1.length r1.1 []
  let s2 := r2.1
  let s3 := lineRuleCore "####".data "<h4>".data "</h4>".data s2.length true s2
  let s4 := lineRuleCore "###".data "<h4>".data "</h4>".data s3.length true s3
  let s5 := lineRuleCore "##".data "<h4>".data "</h4>".data s4.length true s4
  let s6 := lineRuleCore "#".data "<h3>".data "</h3>".data s5.length true s5
  let s7 := hrRuleCore s6.length true s6
  let s8 := figureCore s7.length s7
  let s9 := linkCore s8.length s8
  let s10 := boldCore '*' s9.length s9
  let s11 := boldCore '_' s10.length s10
  let s12 := italicCore '*' s11.length none s11
  let s13 := italicCore '_' s12.length none s12
  let s14 := lineRuleCore ">".data "<blockquote>".data "</blockquote>".data s13.length true s13
  let s15 := List.intercalate ['\n']
    (listPassCore matchUlLine "<ul>".data "</ul>".data (s14.splitOn '\n') [])
  let s16 := List.intercalate ['\n']
    (listPassCore matchOlLine "<ol>".data "</ol>".data (s15.splitOn '\n') [])
  let s17 := restoreCore "__CODEBLOCK_".data "<pre>".data "</pre>".data r1.2 s16.length s16
  let s18 := restoreCore "__INLINECODE_".data "<code>".data "</code>".data r2.2 s17.length s17
  let blocks := splitBlocksCore s18.length [] s18
  (List.intercalate ['\n'] ((blocks.map paraWrap).filter (fun b => !b.isEmpty))).asString

/-! ## JSON values and `JSON.parse`

`parseContent` first tries `JSON.parse` on a string input and returns the
parsed value verbatim when it is an array.  JSON values are modelled
syntactically; numbers keep their lexeme (the claims never inspect numeric
values).  The parser follows the strict JSON grammar accepted by
`JSON.parse` (ECMA-404): no trailing commas, no comments, quoted keys. -/

/-- A parsed JSON value (a dynamic JavaScript value as far as the pipeline
is concerned). -/
inductive Json where
  | null
  | bool (b : Bool)
  | num (lexeme : String)
  | str (s : String)
  | arr (xs : List Json)
  | obj (fields : List (String × Json))

/-- JSON insignificant whitespace (space, tab, LF, CR). -/
def jsonWs (cs : List Char) : List Char :=
  cs.dropWhile (fun c => c = ' ' || c = '\t' || c = '\n' || c = '\r')

/-- Value of one hexadecimal digit (digits, then lowercase and uppercase
letter ranges, by code point). -/
def hexDigitValue (c : Char) : Option Nat :=
  let n := c.toNat
  if 48 ≤ n && n ≤ 57 then some (n - 48)
  else if 97 ≤ n && n ≤ 102 then some (n - 87)
  else if 65 ≤ n && n ≤ 70 then some (n - 55)
  else none

/-- Value of a `\uXXXX` escape (four hex digits, big-endian). -/
def hexQuad (a b c d : Char) : Option Nat :=
  (hexDigitValue a).bind fun x =>
    (hexDigitValue b).bind fun y =>
      (hexDigitValue c).bind fun z =>
        (hexDigitValue d).map fun w => 4096 * x + 256 * y + 16 * z + w

/-- Body of a JSON string after the opening quote: decoded characters and
the input after the closing quote.  Escapes are decoded as `JSON.parse`
does; a surrogate pair of `\u` escapes combines into one code point (a lone
surrogate, unrepresentable in `Char`, degrades to U+0000). -/
def jsonStringChars : Nat → List Char → Option (List Char × List Char)
  | 0, _ => none
  | _, [] => none
  | fuel + 1, c :: cs =>
    if c = '"' then some ([], cs)
    else if c = '\\' then
      match cs with
      | 'u' :: h1 :: h2 :: h3 :: h4c :: cs2 =>
        match hexQuad h1 h2 h3 h4c with
        | some n =>
          if 0xd800 ≤ n && n ≤ 0xdbff then
            match cs2 with
            | '\\' :: 'u' :: g1 :: g2 :: g3 :: g4 :: cs3 =>
              match hexQuad g1 g2 g3 g4 with
              | some m =>
                if 0xdc00 ≤ m && m ≤ 0xdfff then
                  let code := 0x10000 + (n - 0xd800) * 0x400 + (m - 0xdc00)
                  match jsonStringChars fuel cs3 with
                  | some (body, rest) => some (Char.ofNat code :: body, rest)
                  | none => none
                else
                  match jsonStringChars fuel cs3 with
                  | some (body, rest) => some (Char.ofNat n :: Char.ofNat m :: body, rest)
                  | none => none
              | none => none
            | _ =>
              match jsonStringChars fuel cs2 with
              | some (body, rest) => some (Char.ofNat n :: body, rest)
              | none => none
          else
            match jsonStringChars fuel cs2 with
            | some (body, rest) => some (Char.ofNat n :: body, rest)
            | none => none
        | none => none
      | e :: cs2 =>
        let decoded : Option Char :=
          if e = '"' then some '"'
          else if e = '\\' then some '\\'
          else if e = '/' then some '/'
          else if e = 'b' then some '\x08'
          else if e = 'f' then some '\x0c'
          else if e = 'n' then some '\n'
          else if e = 'r' then some '\r'
          else if e = 't' then some '\t'
          else none
        match decoded with
        | some d =>
          match jsonStringChars fuel cs2 with
          | some (body, rest) => some (d :: body, rest)
          | none => none
        | none => none
      | [] => none
    else if c.toNat < 32 then none
    else
      match jsonStringChars fuel cs with
      | some (body, rest) => some (c :: body, rest)
      | none => none

/-- A JSON number at the start of the input (strict grammar: optional `-`,
`0` or a nonzero-led digit run, optional fraction, optional exponent);
returns its lexeme and the rest. -/
def jsonNumber (cs : List Char) : Option (Json × List Char) :=
  let neg : List Char × List Char := match cs with
    | '-' :: r => (['-'], r)
    | _ => ([], cs)
  let intPart : Option (List Char × List Char) := match neg.2 with
    | '0' :: r => some (['0'], r)
    | c :: _ =>
      if '1' ≤ c && c ≤ '9' then
        some (neg.2.takeWhile Char.isDigit, neg.2.dropWhile Char.isDigit)
      else none
    | [] => none
  match intPart with
  | none => none
  | some (ip, cs1) =>
    let frac : Option (List Char × List Char) := match cs1 with
      | '.' :: r =>
        let ds := r.takeWhile Char.isDigit
        if ds.isEmpty then none else some ('.' :: ds, r.dropWhile Char.isDigit)
      | _ => some ([], cs1)
    match frac with
    | none => none
    | some (fp, cs2) =>
      let expo : Option (List Char × List Char) := match cs2 with
        | e :: r =>
          if e = 'e' || e = 'E' then
            let sgn : List Char × List Char := match r with
              | '+' :: r2 => (['+'], r2)
              | '-' :: r2 => (['-'], r2)
              | _ => ([], r)
            let ds := sgn.2.takeWhile Char.isDigit
            if ds.isEmpty then none
            else some (e :: sgn.1 ++ ds, sgn.2.dropWhile Char.isDigit)
          else some ([], cs2)
        | [] => some ([], cs2)
      match expo with
      | none => none
      | some (ep, cs3) => some (.num (neg.1 ++ ip ++ fp ++ ep).asString, cs3)

/-- JavaScript object-field assignment for parsed JSON objects (duplicate
keys keep the first position, last value). -/
def setJsonField (fields : List (String × Json)) (k : String) (v : Json) :
    List (String × Json) :=
  if fields.any (fun q => q.1 = k) then
    fields.map (fun q => if q.1 = k then (k, v) else q)
  else fields ++ [(k, v)]

mutual

/-- A JSON value at the start of the input (leading whitespace allowed). -/
def jsonValue : Nat → List Char → Option (Json × List Char)
  | 0, _ => none
  | fuel + 1, cs =>
    match jsonWs cs with
    | '{' :: cs1 =>
      match jsonWs cs1 with
      | '}' :: cs2 => some (.obj [], cs2)
      | cs2 => jsonObjRest fuel cs2 []
    | '[' :: cs1 =>
      match jsonWs cs1 with
      | ']' :: cs2 => some (.arr [], cs2)
      | cs2 => jsonArrRest fuel cs2 []
    | '"' :: cs1 =>
      match jsonStringChars (cs1.length + 1) cs1 with
      | some (body, rest) => some (.str body.asString, rest)
      | none => none
    | 't' :: 'r' :: 'u' :: 'e' :: cs1 => some (.bool true, cs1)
    | 'f' :: 'a' :: 'l' :: 's' :: 'e' :: cs1 => some (.bool false, cs1)
    | 'n' :: 'u' :: 'l' :: 'l' :: cs1 => some (.null, cs1)
    | cs1 => jsonNumber cs1

/-- Array elements after `[` (first element pending), accumulating in order. -/
def jsonArrRest : Nat → List Char → List Json → Option (Json × List Char)
  | 0, _, _ => none
  | fuel + 1, cs, acc =>
    match jsonValue fuel cs with
    | some (v, rest) =>
      match jsonWs rest with
      | ',' :: rest2 => jsonArrRest fuel rest2 (acc ++ [v])
      | ']' :: rest2 => some (.arr (acc ++ [v]), rest2)
      | _ => none
    | none => none

/-- Object members after `{` (first member pending). -/
def jsonObjRest : Nat → List Char → List (String × Json) → Option (Json × List Char)
  | 0, _, _ => none
  | fuel + 1, cs, acc =>
    match jsonWs cs with
    | '"' :: cs1 =>
      match jsonStringChars (cs1.length + 1) cs1 with
      | some (key, cs2) =>
        match jsonWs cs2 with
        | ':' :: cs3 =>
          match jsonValue fuel cs3 with
          | some (v, rest) =>
            match jsonWs rest with
            | ',' :: rest2 => jsonObjRest fuel rest2 (setJsonField acc key.asString v)
            | '}' :: rest2 => some (.obj (setJsonField acc key.asString v), rest2)
            | _ => none
          | none => none
        | _ => none
      | none => none
    | _ => none

end

/-- Model of `JSON.parse`: a single JSON value spanning the whole input (modulo
surrounding whitespace); `none` models the thrown `SyntaxError`. -/
def jsonParse (s : String) : Option Json :=
  match jsonValue (2 * s.length + 4) s.data with
  | some (v, rest) => if (jsonWs rest).isEmpty then some v else none
  | none => none

/-! ## Content normalizer -/

/-- The `format` discriminator of `parseContent` (`'html' | 'markdown'`,
default `'html'`). -/
inductive ContentFormat where
  | html
  | markdown
deriving DecidableEq

mutual

/-- The JavaScript object a `Node` denotes: a text leaf is a plain string;
an element is an object with a `tag` field, plus an `attrs` field only when
attributes are present and a `children` field only when children are
present — exactly the conditional assignments of `htmlToNodes`. -/
def Node.toJson : Node → Json
  | .text s => .str s
  | .element tag attrs children =>
    .obj ([("tag", Json.str tag)]
      ++ (if attrs.isEmpty then []
          else [("attrs", Json.obj (attrs.map (fun q => (q.1, Json.str q.2))))])
      ++ (if children.isEmpty then []
          else [("children", Json.arr (Node.listToJson children))]))

/-- Pointwise `Node.toJson` on a node list. -/
def Node.listToJson : List Node → List Json
  | [] => []
  | x :: xs => Node.toJson x :: Node.listToJson xs

end

/-- Model of `parseContent` (telegraph-client.ts): a `Node[]` input is returned as is;
a string input is first tried as JSON — a parsed array is returned verbatim
regardless of `format` — otherwise the string (converted from Markdown
first when `format` is `markdown`) is parsed as HTML.  The result type is
`List Json` because the JSON branch returns arbitrary parsed values;
`Node.listToJson` is the canonical embedding of typed nodes into that
dynamic type. -/
def parseContent (content : List Node ⊕ String) (format : ContentFormat) : List Json :=
  match content with
  | .inl ns => Node.listToJson ns
  | .inr s =>
    match jsonParse s with
    | some (.arr xs) => xs
    | _ =>
      let htmlContent := if format = ContentFormat.markdown then markdownToHtml s else s
      Node.listToJson (htmlToNodes htmlContent)

/-! ## Tree-to-Markdown serializer (tools/export.ts) -/

/-- The `switch (node.tag)` of `nodeElementToMarkdown` (export.ts): the
per-tag Markdown template, applied to the already-serialized children
(the source computes `children` once before switching). -/
def nodeElementTemplate (tag : String) (attrs : List (String × String)) (c : String) : String :=
  if tag = "h3" then "\n# " ++ c ++ "\n"
  else if tag = "h4" then "\n## " ++ c ++ "\n"
  else if tag = "p" then "\n" ++ c ++ "\n"
  else if tag = "b" || tag = "strong" then "**" ++ c ++ "**"
  else if tag = "i" || tag = "em" then "*" ++ c ++ "*"
  else if tag = "a" then "[" ++ c ++ "](" ++ ((attrs.lookup "href").getD "") ++ ")"
  else if tag = "img" then "![image](" ++ ((attrs.lookup "src").getD "") ++ ")"
  else if tag = "figure" then c
  else if tag = "figcaption" then "\n*" ++ c ++ "*\n"
  else if tag = "ul" then "\n" ++ c
  else if tag = "ol" then "\n" ++ c
  else if tag = "li" then "- " ++ c ++ "\n"
  else if tag = "blockquote" then "\n> " ++ c ++ "\n"
  else if tag = "code" then "`" ++ c ++ "`"
  else if tag = "pre" then "\n```\n" ++ c ++ "\n```\n"
  else if tag = "br" then "\n"
  else if tag = "hr" then "\n---\n"
  else if tag = "s" then "~~" ++ c ++ "~~"
  else if tag = "u" then c
  else if tag = "aside" then "\n*" ++ c ++ "*\n"
  else c

mutual

/-- Model of `nodesToMarkdown` (export.ts): concatenate each node's rendering in
sequence order. -/
def nodesToMarkdown : List Node → String
  | [] => ""
  | n :: ns => nodeToMarkdown n ++ nodesToMarkdown ns

/-- The loop body of `nodesToMarkdown`: a text leaf renders verbatim
(`typeof node === 'string'`), an element through `nodeElementToMarkdown`,
i.e. the per-tag template applied to its serialized children (an absent
`children` field serializes to the empty string, as does an empty list). -/
def nodeToMarkdown : Node → String
  | .text s => s
  | .element tag attrs children => nodeElementTemplate tag attrs (nodesToMarkdown children)

end

/-! ## Substring predicates used to state the claims -/

/-- Does `needle` occur (contiguously) in the character list? -/
def listContainsSub (needle : List Char) : List Char → Bool
  | [] => needle.isEmpty
  | c :: cs => needle.isPrefixOf (c :: cs) || listContainsSub needle cs

/-- Does `needle` occur as a substring of `hay`? -/
def strContainsSub (hay needle : String) : Bool :=
  listContainsSub needle.data hay.data

/-- Number of (possibly overlapping) occurrences of `needle`. -/
def countOccurList (needle : List Char) : List Char → Nat
  | [] => 0
  | c :: cs => (if needle.isPrefixOf (c :: cs) then 1 else 0) + countOccurList needle cs

/-- Number of occurrences of `needle` as a substring of `hay`. -/
def countOccurSub (hay needle : String) : Nat :=
  countOccurList needle.data hay.data

/-- Drop everything up to and including the first occurrence of `needle`;
`none` when it does not occur. -/
def dropAfterFirst (needle : List Char) : List Char → Option (List Char)
  | [] => none
  | c :: cs =>
    if needle.isPrefixOf (c :: cs) then some ((c :: cs).drop needle.length)
    else dropAfterFirst needle cs

/-- Do the needles all occur in `hay`, in the given order (each after the
previous one's end)? -/
def seqContainsList : List (List Char) → List Char → Bool
  | [], _ => true
  | n :: ns, hay =>
    match dropAfterFirst n hay with
    | some rest => seqContainsList ns rest
    | none => false

/-- String version of ordered containment. -/
def strSeqContains (needles : List String) (hay : String) : Bool :=
  seqContainsList (needles.map String.data) hay.data

/-- Formalization of the wording of claim C1: the raw attribute substring
carries a trailing `/` marker (its last character, ignoring trailing
whitespace, is `/`), as in `<img src="x" />`. -/
def hasTrailingSlashMarker (s : String) : Bool :=
  match s.data.reverse.dropWhile isJsSpace with
  | c :: _ => c = '/'
  | [] => false

/-! ## Claim theorems -/

/-- Helper: the end-of-input cleanup behaves exactly like feeding one
closing tag per open frame through the token loop (the closing tag's name
and attribute string are irrelevant — a close pops unconditionally). -/
theorem flushStackCore_eq_close_steps (nm a : String) :
    ∀ (fuel : Nat) (fs : List Frame) (ns : List Node), fs.length ≤ fuel →
      flushStackCore fuel fs ns =
        (runTokens ⟨ns, fs⟩ (List.replicate fs.length (Token.tag true nm a))).nodes := by
  intro fuel
  induction fuel with
  | zero =>
    intro fs ns h
    have hfs : fs = [] := List.eq_nil_of_length_eq_zero (Nat.le_zero.mp h)
    subst hfs
    simp [flushStackCore, runTokens]
  | succ fuel ih =>
    intro fs ns h
    match fs with
    | [] => simp [flushStackCore, runTokens]
    | [f] => simp [flushStackCore, runTokens, step, pushNode]
    | f :: g :: gs =>
      have hlen : ({ g with children := g.children ++ [f.toNode] } :: gs).length ≤ fuel := by
        simpa using Nat.le_of_succ_le_succ h
      calc flushStackCore (fuel + 1) (f :: g :: gs) ns
          = flushStackCore fuel ({ g with children := g.children ++ [f.toNode] } :: gs) ns := by
            simp [flushStackCore]
        _ = (runTokens ⟨ns, { g with children := g.children ++ [f.toNode] } :: gs⟩
              (List.replicate (gs.length + 1) (Token.tag true nm a))).nodes := by
            simpa using ih ({ g with children := g.children ++ [f.toNode] } :: gs) ns hlen
        _ = (runTokens ⟨ns, f :: g :: gs⟩
              (List.replicate (f :: g :: gs).length (Token.tag true nm a))).nodes := by
            simp [runTokens, List.replicate_succ, step, pushNode]

/-- C3: parsing the well-formed balanced input `<p>Hello <b>world</b></p>`
yields exactly one `p` element with two children in order — the text leaf
`"Hello "` followed by a `b` element whose only child is the text leaf
`"world"`. -/
theorem claimC3_balanced_tree :
    htmlToNodes "<p>Hello <b>world</b></p>" =
      [Node.element "p" [] [Node.text "Hello ", Node.element "b" [] [Node.text "world"]]] := by
  decide

/-- C5: `markdownToHtml` maps a single leading `#` to `h3` and collapses
`##`, `###` and `####` to `h4`: `"# Title"` converts exactly to
`<h3>Title</h3>` (so that string occurs exactly once), and `"## Sub"`,
`"### Sub"`, `"#### Sub"` all convert to `<h4>Sub</h4>`. -/
theorem claimC5_heading_collapse :
    markdownToHtml "# Title" = "<h3>Title</h3>" ∧
    countOccurSub (markdownToHtml "# Title") "<h3>Title</h3>" = 1 ∧
    markdownToHtml "## Sub" = "<h4>Sub</h4>" ∧
    markdownToHtml "### Sub" = "<h4>Sub</h4>" ∧
    markdownToHtml "#### Sub" = "<h4>Sub</h4>" := by
  decide

/-- C6: `"**bold**"` converts to HTML containing `<b>bold</b>`, `"*it*"`
converts to HTML containing `<i>it</i>`, and `"snake_case_var"` — whose
underscores are flanked by word characters, which the lookarounds of the
italic rules reject — produces no italic markup at all. -/
theorem claimC6_bold_italic_guards :
    markdownToHtml "**bold**" = "<b>bold</b>" ∧
    strContainsSub (markdownToHtml "**bold**") "<b>bold</b>" = true ∧
    markdownToHtml "*it*" = "<i>it</i>" ∧
    strContainsSub (markdownToHtml "*it*") "<i>it</i>" = true ∧
    markdownToHtml "snake_case_var" = "<p>snake_case_var</p>" ∧
    strContainsSub (markdownToHtml "snake_case_var") "<i>" = false := by
  decide

/-- C8: serializing the two-node sequence — a `p` element with the text
child `"Hi "` followed by a `b` element with the text child `"there"` —
to Markdown renders the nodes in sequence order — the output contains
`"Hi"` and, later, `"**there**"` (the full output is `"\nHi \n**there**"`). -/
theorem claimC8_serializer_order :
    nodesToMarkdown [Node.element "p" [] [Node.text "Hi "], Node.element "b" [] [Node.text "there"]] =
      "\nHi \n**there**" ∧
    strSeqContains ["Hi", "**there**"] "\nHi \n**there**" = true := by
  decide

/-- C2: the claim is false on the code — for the input
`"# Hi\n\n**bold** and *italic*\n\n- a\n- b"` the converter's output
contains no `<p>` element at all: the middle block `"<b>bold</b> and
<i>italic</i>"` starts with `<` and ends with `>`, so the paragraph stage
passes it through unwrapped. -/
theorem claimC2_counterexample :
    markdownToHtml "# Hi\n\n**bold** and *italic*\n\n- a\n- b" =
      "<h3>Hi</h3>\n<b>bold</b> and <i>italic</i>\n<ul><li>a</li><li>b</li></ul>" ∧
    strContainsSub (markdownToHtml "# Hi\n\n**bold** and *italic*\n\n- a\n- b") "<p>" = false := by
  decide

/-- C2 (amended): for that input the output contains, in order, an `<h3>`
element containing `Hi`, then the text `<b>bold</b> and <i>italic</i>`
standing on its own (not wrapped in a `<p>` element, because the paragraph
stage passes through a block that starts with `<` and ends with `>`), then
a `<ul>` element with two `<li>` items for `a` and `b`. -/
theorem claimC2_order_no_paragraph :
    strSeqContains ["<h3>Hi</h3>", "<b>bold</b> and <i>italic</i>", "<ul><li>a</li><li>b</li></ul>"]
      (markdownToHtml "# Hi\n\n**bold** and *italic*\n\n- a\n- b") = true := by
  decide

/-- C4: any input with unclosed tags still yields a result (the parser is a
total function), with every still-open frame force-closed in LIFO order
exactly as that many explicit closing tags would close it (whatever closing
tag name is used — a close pops unconditionally); concretely,
`"<p>Hello"` parses to the non-empty `[p [text "Hello"]]`, losing nothing. -/
theorem claimC4_unclosed_force_close (fs : List Frame) (ns : List Node) (nm a : String) :
    flushStack fs ns =
      (runTokens ⟨ns, fs⟩ (List.replicate fs.length (Token.tag true nm a))).nodes ∧
    htmlToNodes "<p>Hello" = [Node.element "p" [] [Node.text "Hello"]] ∧
    htmlToNodes "<p>Hello" ≠ [] :=
  ⟨flushStackCore_eq_close_steps nm a fs.length fs ns (Nat.le_refl _), by decide, by decide⟩

/-- C10: a closing tag met while the open-element stack is empty is
silently dropped — the token loop state is unchanged, so the remaining
tokens parse exactly as if the stray tag were absent; concretely,
`"</b>text"` parses identically to `"text"`, to the single leaf `"text"`. -/
theorem claimC10_stray_close_dropped (st : PState) (nm attrString : String) (ts : List Token)
    (h : st.stack = []) :
    runTokens st (Token.tag true nm attrString :: ts) = runTokens st ts ∧
    htmlToNodes "</b>text" = htmlToNodes "text" ∧
    htmlToNodes "</b>text" = [Node.text "text"] := by
  refine ⟨?_, by decide, by decide⟩
  simp [runTokens, step, h]

/-- Witness for C10 at the empty state and a concrete stray `</b>`. -/
theorem claimC10_stray_close_dropped_witness :
    (⟨[], []⟩ : PState).stack = [] ∧
    runTokens ⟨[], []⟩ [Token.tag true "b" ""] = runTokens ⟨[], []⟩ [] :=
  ⟨rfl, (claimC10_stray_close_dropped ⟨[], []⟩ "b" "" [] rfl).1⟩

/-- C9: an opening tag whose raw attribute substring contains `/` anywhere
(`attrString.includes('/')` — also inside a quoted value such as
`href="https://example.com"`) is emitted immediately as a childless element
and pushes no stack frame (the stack depth is unchanged), so following
content becomes its sibling: `<a href="https://example.com">x</a>` parses
to a childless `a` element followed by the sibling leaf `"x"`. -/
theorem claimC9_slash_self_closing (st : PState) (nm attrString : String)
    (hname : selfClosingTags.contains (strToLower nm) = false)
    (hslash : strContainsChar attrString '/' = true) :
    step st (Token.tag false nm attrString) =
      pushNode st (Node.element (strToLower nm) (parseAttrs attrString) []) ∧
    (step st (Token.tag false nm attrString)).stack.length = st.stack.length ∧
    htmlToNodes "<a href=\"https://example.com\">x</a>" =
      [Node.element "a" [("href", "https://example.com")] [], Node.text "x"] := by
  have h1 : step st (Token.tag false nm attrString) =
      pushNode st (Node.element (strToLower nm) (parseAttrs attrString) []) := by
    simp [step, hslash]
  refine ⟨h1, ?_, by decide⟩
  rw [h1]
  cases h : st.stack <;> simp [pushNode, h]

/-- Witness for C9 at the empty state and the anchor tag of the claim. -/
theorem claimC9_slash_self_closing_witness :
    selfClosingTags.contains (strToLower "a") = false ∧
    strContainsChar " href=\"https://example.com\"" '/' = true ∧
    step ⟨[], []⟩ (Token.tag false "a" " href=\"https://example.com\"") =
      pushNode ⟨[], []⟩
        (Node.element (strToLower "a") (parseAttrs " href=\"https://example.com\"") []) :=
  ⟨by decide, by decide,
   (claimC9_slash_self_closing ⟨[], []⟩ "a" " href=\"https://example.com\""
     (by decide) (by decide)).1⟩

/-- C1: the claim as stated is false at a concrete input: the opening tag
`<a href="https://example.com">` has lowercased name `a` (not in the
self-closing set) and its raw attribute substring carries no trailing `/`
marker, yet no stack frame is pushed — the code tests
`attrString.includes('/')`, which is true of the `//` inside the quoted
URL, so the element is emitted childless and the following text `"x"`
becomes its sibling rather than its child. -/
theorem claimC1_counterexample :
    selfClosingTags.contains (strToLower "a") = false ∧
    hasTrailingSlashMarker " href=\"https://example.com\"" = false ∧
    (step ⟨[], []⟩ (Token.tag false "a" " href=\"https://example.com\"")).stack = [] ∧
    htmlToNodes "<a href=\"https://example.com\">x</a>" =
      [Node.element "a" [("href", "https://example.com")] [], Node.text "x"] := by
  decide

/-- C1 (amended): for every state and every opening tag whose lowercased
name is not in the self-closing set and whose raw attribute substring
contains no `/` character anywhere, the parser pushes a fresh frame
(lowercased tag name, parsed attributes, empty children) and redirects the
current node list to that frame's children — a following nonempty text run
lands in the new frame's children, not beside the element. -/
theorem claimC1_push_no_slash (st : PState) (nm attrString s : String)
    (hname : selfClosingTags.contains (strToLower nm) = false)
    (hslash : strContainsChar attrString '/' = false)
    (hs : s.isEmpty = false) :
    step st (Token.tag false nm attrString) =
      { st with stack := ⟨strToLower nm, parseAttrs attrString, []⟩ :: st.stack } ∧
    (step (step st (Token.tag false nm attrString)) (Token.text s)).stack =
      ⟨strToLower nm, parseAttrs attrString, [Node.text s]⟩ :: st.stack := by
  have hname2 : strToLower nm ∉ selfClosingTags := by simpa using hname
  have h1 : step st (Token.tag false nm attrString) =
      { st with stack := ⟨strToLower nm, parseAttrs attrString, []⟩ :: st.stack } := by
    simp [step, hname2, hslash]
  refine ⟨h1, ?_⟩
  rw [h1]
  simp [step, hs, pushNode]

/-- Witness for the amended C1 at the empty state, tag `p`, empty attribute
substring and following text `"x"`. -/
theorem claimC1_push_no_slash_witness :
    selfClosingTags.contains (strToLower "p") = false ∧
    strContainsChar "" '/' = false ∧
    (step (step ⟨[], []⟩ (Token.tag false "p" "")) (Token.text "x")).stack =
      [⟨"p", [], [Node.text "x"]⟩] :=
  ⟨by decide, by decide,
   (claimC1_push_no_slash ⟨[], []⟩ "p" "" "x" (by decide) (by decide) (by decide)).2⟩

/-- C7: the content normalizer returns a `Node[]` input as is (the identity
up to the canonical embedding of typed nodes into dynamic JSON values), and
returns the parsed array verbatim for any string input that `JSON.parse`
maps to an array — in both cases independently of the declared format. -/
theorem claimC7_normalizer_identity (ns : List Node) (s : String) (xs : List Json)
    (f g : ContentFormat) (h : jsonParse s = some (Json.arr xs)) :
    parseContent (Sum.inl ns) f = Node.listToJson ns ∧
    parseContent (Sum.inl ns) f = parseContent (Sum.inl ns) g ∧
    parseContent (Sum.inr s) f = xs ∧
    parseContent (Sum.inr s) f = parseContent (Sum.inr s) g := by
  refine ⟨rfl, rfl, ?_, ?_⟩ <;> simp [parseContent, h]

/-- Witness for C7 at the concrete JSON-array string `["x"]`. -/
theorem claimC7_normalizer_identity_witness :
    jsonParse "[\"x\"]" = some (Json.arr [Json.str "x"]) ∧
    parseContent (Sum.inr "[\"x\"]") ContentFormat.markdown = [Json.str "x"] ∧
    parseContent (Sum.inr "[\"x\"]") ContentFormat.markdown =
      parseContent (Sum.inr "[\"x\"]") ContentFormat.html :=
  ⟨rfl,
   (claimC7_normalizer_identity [] "[\"x\"]" [Json.str "x"]
     ContentFormat.markdown ContentFormat.html rfl).2.2.1,
   (claimC7_normalizer_identity [] "[\"x\"]" [Json.str "x"]
     ContentFormat.markdown ContentFormat.html rfl).2.2.2⟩

end Telegraph
